import Mathlib

/-!
Verification of the ENCO repository's convergence-derivation notebook
(`convergence_guarantees_ENCO.ipynb`) and of the structure-learning
contracts exercised by `walkthrough.ipynb`.

The notebook fixes the 3-variable chain `X1 → X2 → X3` with
`p(X1) = [0.3, 0.7]`, `p(X2|X1) = [[0.6, 0.4], [0.4, 0.6]]`,
`p(X3|X2) = [[0.2, 0.8], [0.8, 0.2]]` and the uniform intervention
distribution `[0.5, 0.5]`, and evaluates expected log-likelihood
contrasts `expect_diff(joint, prob1, prob2)` for candidate edges.
Tensors are embedded as functions on `Fin 2` index tuples; numpy
broadcasting at a call site becomes composition with a projection.
-/

namespace ENCO

open Real Finset

/-- `p_1 = np.array([0.3, 0.7])`: the marginal `p(X_1)`. -/
def p_1 : Fin 2 → ℝ := ![0.3, 0.7]

/-- `p_2_1 = np.array([[0.6, 0.4], [0.4, 0.6]])`: `p(X_2|X_1)`,
first axis `X_1`, second axis `X_2`. -/
def p_2_1 : Fin 2 → Fin 2 → ℝ := ![![0.6, 0.4], ![0.4, 0.6]]

/-- `p_3_2 = np.array([[0.2, 0.8], [0.8, 0.2]])`: `p(X_3|X_2)`,
first axis `X_2`, second axis `X_3`. -/
def p_3_2 : Fin 2 → Fin 2 → ℝ := ![![0.2, 0.8], ![0.8, 0.2]]

/-- `p_interv = np.array([0.5, 0.5])`: the distribution used for
intervened variables in place of their original conditionals. -/
def p_interv : Fin 2 → ℝ := ![0.5, 0.5]

/-- `p_2 = (p_1[:,None] * p_2_1).sum(axis=0)`: the marginal `p(X_2)`. -/
def p_2 : Fin 2 → ℝ := fun x2 => ∑ x1, p_1 x1 * p_2_1 x1 x2

/-- `p_3 = (p_2[:,None] * p_3_2).sum(axis=0)`: the marginal `p(X_3)`. -/
def p_3 : Fin 2 → ℝ := fun x3 => ∑ x2, p_2 x2 * p_3_2 x2 x3

/-- `p_3_1 = (p_2_1[:,:,None] * p_3_2[None,:,:]).sum(axis=1)`:
`p(X_3|X_1)`, first axis `X_1`, second axis `X_3`. -/
def p_3_1 : Fin 2 → Fin 2 → ℝ := fun x1 x3 => ∑ x2, p_2_1 x1 x2 * p_3_2 x2 x3

/-- `def expect_diff(joint_prob, prob1, prob2): return
(joint_prob * (np.log(prob1) - np.log(prob2))).sum()` — the expected
log-likelihood difference over a finite index set. -/
noncomputable def expect_diff {ι : Type} [Fintype ι] (joint_prob prob1 prob2 : ι → ℝ) : ℝ :=
  ∑ i, joint_prob i * (Real.log (prob1 i) - Real.log (prob2 i))

/-- `p_interv_1_2 = p_interv[:,None] * p_2_1`: the joint
`p(do(X_1), X_2)`, first axis `X_1`, second axis `X_2`. -/
def p_interv_1_2 : Fin 2 × Fin 2 → ℝ := fun x => p_interv x.1 * p_2_1 x.1 x.2

/-- `p_interv_1_2_3 = p_interv[:,None,None] * p_2_1[:,:,None] *
p_3_2[None,:,:]`: the joint `p(do(X_1), X_2, X_3)`. -/
def p_interv_1_2_3 : Fin 2 × Fin 2 × Fin 2 → ℝ :=
  fun x => p_interv x.1 * p_2_1 x.1 x.2.1 * p_3_2 x.2.1 x.2.2

/-- `p_interv_3_1_2 = p_interv[:,None,None] * p_1[None,:,None] *
p_2_1[None,:,:]`: the joint `p(do(X_3), X_1, X_2)`, axes `(X_3, X_1, X_2)`. -/
def p_interv_3_1_2 : Fin 2 × Fin 2 × Fin 2 → ℝ :=
  fun x => p_interv x.1 * p_1 x.2.1 * p_2_1 x.2.1 x.2.2

/-- `p_interv_2_3_1 = p_interv[:,None,None] * p_3_2[:,:,None] *
p_1[None,None,:]`: the joint `p(do(X_2), X_3, X_1)`, axes `(X_2, X_3, X_1)`. -/
def p_interv_2_3_1 : Fin 2 × Fin 2 × Fin 2 → ℝ :=
  fun x => p_interv x.1 * p_3_2 x.1 x.2.1 * p_1 x.2.2

/-- `p_interv_1_3 = p_interv_1_2_3.sum(axis=1)`: the joint
`p(do(X_1), X_3)` obtained by marginalizing out `X_2`. -/
def p_interv_1_3 : Fin 2 × Fin 2 → ℝ :=
  fun x => ∑ x2, p_interv_1_2_3 (x.1, x2, x.2)

/-- Pointwise strict Gibbs-type bound: for positive `p`, `q` with `q ≠ p`
and positive coefficient `c`, `c * p * (log q - log p) < c * (q - p)`.
Follows from `log x < x - 1` at `x = q / p ≠ 1`. -/
lemma mul_log_sub_lt (c p q : ℝ) (hc : 0 < c) (hp : 0 < p) (hq : 0 < q)
    (hne : q ≠ p) : c * p * (Real.log q - Real.log p) < c * (q - p) := by
  have hqp : (0 : ℝ) < q / p := div_pos hq hp
  have hne1 : q / p ≠ 1 := by
    intro h
    apply hne
    field_simp at h
    linarith
  have hlog := Real.log_lt_sub_one_of_pos hqp hne1
  rw [Real.log_div hq.ne' hp.ne'] at hlog
  have hcp : (0 : ℝ) < c * p := mul_pos hc hp
  have h2 := (mul_lt_mul_left hcp).mpr hlog
  have h3 : c * p * (q / p - 1) = c * (q - p) := by
    field_simp
    ring
  linarith

lemma p_2_zero : p_2 0 = 0.46 := by
  simp [p_2, p_1, p_2_1, Fin.sum_univ_two]
  norm_num

lemma p_2_one : p_2 1 = 0.54 := by
  simp [p_2, p_1, p_2_1, Fin.sum_univ_two]
  norm_num

/-- C1: for the fixed chain, the expected log-likelihood contrast for the
true edge `X1 → X2` under intervention on `X1`,
`expect_diff(p_interv_1_2, p_2_1, p_2)`, is strictly positive (the
reference float value is `0.023345797452150232`); we additionally bound
it above by `0.05`, consistent with `≈ 0.0233` nats. -/
theorem edge12_interv_contrast_pos :
    0 < expect_diff p_interv_1_2 (fun x => p_2_1 x.1 x.2) (fun x => p_2 x.2) ∧
    expect_diff p_interv_1_2 (fun x => p_2_1 x.1 x.2) (fun x => p_2 x.2) < 0.05 := by
  have h1 := mul_log_sub_lt 0.5 0.6 0.46 (by norm_num) (by norm_num) (by norm_num) (by norm_num)
  have h2 := mul_log_sub_lt 0.5 0.4 0.54 (by norm_num) (by norm_num) (by norm_num) (by norm_num)
  have h3 := mul_log_sub_lt 0.5 0.4 0.46 (by norm_num) (by norm_num) (by norm_num) (by norm_num)
  have h4 := mul_log_sub_lt 0.5 0.6 0.54 (by norm_num) (by norm_num) (by norm_num) (by norm_num)
  have g1 := mul_log_sub_lt (0.6 / 0.92) 0.46 0.6 (by norm_num) (by norm_num) (by norm_num) (by norm_num)
  have g2 := mul_log_sub_lt (0.4 / 1.08) 0.54 0.4 (by norm_num) (by norm_num) (by norm_num) (by norm_num)
  have g3 := mul_log_sub_lt (0.4 / 0.92) 0.46 0.4 (by norm_num) (by norm_num) (by norm_num) (by norm_num)
  have g4 := mul_log_sub_lt (0.6 / 1.08) 0.54 0.6 (by norm_num) (by norm_num) (by norm_num) (by norm_num)
  have hexp : expect_diff p_interv_1_2 (fun x => p_2_1 x.1 x.2) (fun x => p_2 x.2)
      = 0.5 * 0.6 * (Real.log 0.6 - Real.log 0.46)
        + 0.5 * 0.4 * (Real.log 0.4 - Real.log 0.54)
        + 0.5 * 0.4 * (Real.log 0.4 - Real.log 0.46)
        + 0.5 * 0.6 * (Real.log 0.6 - Real.log 0.54) := by
    simp [expect_diff, Fintype.sum_prod_type, Fin.sum_univ_two, p_interv_1_2,
      p_interv, p_2_1, p_2_zero, p_2_one]
    ring
  rw [hexp]
  constructor
  · nlinarith [h1, h2, h3, h4]
  · nlinarith [g1, g2, g3, g4]

lemma p_3_zero : p_3 0 = 0.524 := by
  simp [p_3, p_3_2, Fin.sum_univ_two, p_2_zero, p_2_one]
  norm_num

lemma p_3_one : p_3 1 = 0.476 := by
  simp [p_3, p_3_2, Fin.sum_univ_two, p_2_zero, p_2_one]
  norm_num

/-- C2: for the chain `X1 → X2 → X3`, the expected log-likelihood
contrast for edge `X1 → X2` computed from interventional data on the
third variable `X3`, `expect_diff(p_interv_3_1_2, p_2_1, p_2)`, is
strictly positive, consistent with the true edge direction (the
reference float value is `0.016932091449143066`). -/
theorem edge12_interv3_contrast_pos :
    0 < expect_diff p_interv_3_1_2 (fun x => p_2_1 x.2.1 x.2.2) (fun x => p_2 x.2.2) := by
  have h1 := mul_log_sub_lt 0.3 0.6 0.46 (by norm_num) (by norm_num) (by norm_num) (by norm_num)
  have h2 := mul_log_sub_lt 0.3 0.4 0.54 (by norm_num) (by norm_num) (by norm_num) (by norm_num)
  have h3 := mul_log_sub_lt 0.7 0.4 0.46 (by norm_num) (by norm_num) (by norm_num) (by norm_num)
  have h4 := mul_log_sub_lt 0.7 0.6 0.54 (by norm_num) (by norm_num) (by norm_num) (by norm_num)
  have hexp : expect_diff p_interv_3_1_2 (fun x => p_2_1 x.2.1 x.2.2) (fun x => p_2 x.2.2)
      = 0.3 * 0.6 * (Real.log 0.6 - Real.log 0.46)
        + 0.3 * 0.4 * (Real.log 0.4 - Real.log 0.54)
        + 0.7 * 0.4 * (Real.log 0.4 - Real.log 0.46)
        + 0.7 * 0.6 * (Real.log 0.6 - Real.log 0.54) := by
    simp [expect_diff, Fintype.sum_prod_type, Fin.sum_univ_two, p_interv_3_1_2,
      p_interv, p_1, p_2_1, p_2_zero, p_2_one]
    ring
  rw [hexp]
  nlinarith [h1, h2, h3, h4]

/-- C3: for the non-adjacent ancestor–descendant pair `(X1, X3)`, the
contrast `expect_diff(p_interv_1_3, p_3_1, p_3)` under intervention on
`X1` is strictly positive (reference float `0.008370709453533205`),
while conditioning on the mediator `X2` gives
`expect_diff(p_interv_1_2_3, p_3_2, p_3_2) = 0` exactly. -/
theorem ancestor_pair_contrast_gap :
    0 < expect_diff p_interv_1_3 (fun x => p_3_1 x.1 x.2) (fun x => p_3 x.2) ∧
    expect_diff p_interv_1_2_3 (fun x => p_3_2 x.2.1 x.2.2)
      (fun x => p_3_2 x.2.1 x.2.2) = 0 := by
  constructor
  · have h1 := mul_log_sub_lt 0.5 0.44 0.524 (by norm_num) (by norm_num) (by norm_num) (by norm_num)
    have h2 := mul_log_sub_lt 0.5 0.56 0.476 (by norm_num) (by norm_num) (by norm_num) (by norm_num)
    have h3 := mul_log_sub_lt 0.5 0.56 0.524 (by norm_num) (by norm_num) (by norm_num) (by norm_num)
    have h4 := mul_log_sub_lt 0.5 0.44 0.476 (by norm_num) (by norm_num) (by norm_num) (by norm_num)
    have hexp : expect_diff p_interv_1_3 (fun x => p_3_1 x.1 x.2) (fun x => p_3 x.2)
        = 0.22 * (Real.log 0.44 - Real.log 0.524)
          + 0.28 * (Real.log 0.56 - Real.log 0.476)
          + 0.28 * (Real.log 0.56 - Real.log 0.524)
          + 0.22 * (Real.log 0.44 - Real.log 0.476) := by
      have e00 : p_3_1 0 0 = 0.44 := by
        simp [p_3_1, p_2_1, p_3_2, Fin.sum_univ_two]; norm_num
      have e01 : p_3_1 0 1 = 0.56 := by
        simp [p_3_1, p_2_1, p_3_2, Fin.sum_univ_two]; norm_num
      have e10 : p_3_1 1 0 = 0.56 := by
        simp [p_3_1, p_2_1, p_3_2, Fin.sum_univ_two]; norm_num
      have e11 : p_3_1 1 1 = 0.44 := by
        simp [p_3_1, p_2_1, p_3_2, Fin.sum_univ_two]; norm_num
      simp [expect_diff, Fintype.sum_prod_type, Fin.sum_univ_two, p_interv_1_3,
        p_interv_1_2_3, p_interv, p_1, p_2_1, p_3_2, e00, e01, e10, e11,
        p_3_zero, p_3_one]
      ring
    rw [hexp]
    nlinarith [h1, h2, h3, h4]
  · simp [expect_diff]

/-- C9: for nonnegative weights and strictly positive likelihood tensors,
the expected log-likelihood difference is zero when the two likelihood
models coincide, and is antisymmetric in its two model arguments. -/
theorem expect_diff_refl_antisymm {ι : Type} [Fintype ι] (j a b : ι → ℝ)
    (hj : ∀ i, 0 ≤ j i) (ha : ∀ i, 0 < a i) (hb : ∀ i, 0 < b i) :
    expect_diff j a a = 0 ∧ expect_diff j a b = - expect_diff j b a := by
  constructor
  · simp [expect_diff]
  · rw [eq_neg_iff_add_eq_zero, expect_diff, expect_diff, ← Finset.sum_add_distrib]
    apply Finset.sum_eq_zero
    intro i _
    ring

/-- Witness for `expect_diff_refl_antisymm` at the constant tensors
`j = 1`, `a = 1`, `b = 2` on a one-point index set. -/
theorem expect_diff_refl_antisymm_witness :
    (∀ _ : Fin 1, (0 : ℝ) ≤ 1) ∧ (∀ _ : Fin 1, (0 : ℝ) < 1) ∧
    (∀ _ : Fin 1, (0 : ℝ) < 2) ∧
    (expect_diff (fun _ : Fin 1 => (1 : ℝ)) (fun _ => (1 : ℝ)) (fun _ => (1 : ℝ)) = 0 ∧
     expect_diff (fun _ : Fin 1 => (1 : ℝ)) (fun _ => (1 : ℝ)) (fun _ => (2 : ℝ))
       = - expect_diff (fun _ : Fin 1 => (1 : ℝ)) (fun _ => (2 : ℝ)) (fun _ => (1 : ℝ))) :=
  ⟨fun _ => zero_le_one, fun _ => one_pos, fun _ => two_pos,
   expect_diff_refl_antisymm _ _ _ (fun _ => zero_le_one) (fun _ => one_pos)
     (fun _ => two_pos)⟩

/-- C10: when the two likelihood arguments of `expect_diff` do not depend
on one coordinate of the joint weight tensor, summing that coordinate out
of the joint leaves the result unchanged; in particular the edge
`X1 → X2` contrast is the same under `p(do(X1), X2, X3)` and under the
marginal `p(do(X1), X2)`, and the edge `X2 → X3` contrast is the same
under `p(do(X1), X2, X3)` and under `p(do(X2), X3, X1)`. -/
theorem expect_diff_marginalization :
    (∀ (ι κ : Type) [Fintype ι] [Fintype κ] (j : ι × κ → ℝ) (a b : ι → ℝ),
        expect_diff j (fun x => a x.1) (fun x => b x.1)
          = expect_diff (fun i => ∑ k, j (i, k)) a b) ∧
    expect_diff p_interv_1_2_3 (fun x => p_2_1 x.1 x.2.1) (fun x => p_2 x.2.1)
      = expect_diff p_interv_1_2 (fun x => p_2_1 x.1 x.2) (fun x => p_2 x.2) ∧
    expect_diff p_interv_1_2_3 (fun x => p_3_2 x.2.1 x.2.2) (fun x => p_3 x.2.2)
      = expect_diff p_interv_2_3_1 (fun x => p_3_2 x.1 x.2.1) (fun x => p_3 x.2.1) := by
  refine ⟨?_, ?_, ?_⟩
  · intro ι κ _ _ j a b
    simp only [expect_diff, Fintype.sum_prod_type, Finset.sum_mul]
  · simp [expect_diff, Fintype.sum_prod_type, Fin.sum_univ_two, p_interv_1_2_3,
      p_interv_1_2, p_interv, p_1, p_2_1, p_3_2, p_2_zero, p_2_one]
    ring
  · simp [expect_diff, Fintype.sum_prod_type, Fin.sum_univ_two, p_interv_1_2_3,
      p_interv_2_3_1, p_interv, p_1, p_2_1, p_3_2, p_3_zero, p_3_one]
    ring

/-- Modelled from the spec: the Adjacency Sampler's `sample_hypothesis`
(§4.3), whose implementation is not part of the provided sources. Per
unordered pair `{i, j}` (normalized so the first index is smaller), an
orientation draw `o ~ Bernoulli(sigmoid(orientation_logit[i,j]))` chooses
`i→j` versus `j→i`, then an existence draw
`e ~ Bernoulli(sigmoid(existence_logit[chosen direction]))` decides
whether the chosen directed edge is active; the opposite direction and
the diagonal are left at `0`. The Bernoulli outcomes are abstracted as
the Boolean-valued functions `odraw` (orientation, `true` meaning the
smaller-index variable points to the larger) and `edraw` (existence,
queried at the chosen direction); the logits only parameterize the
probabilities of the draws, never the shape of the returned matrix. -/
def sample_hypothesis (N : ℕ) (existence_logit orientation_logit : ℕ → ℕ → ℝ)
    (odraw edraw : ℕ → ℕ → Bool) : ℕ → ℕ → ℕ := fun i j =>
  if i < N ∧ j < N ∧ i ≠ j then
    if i < j then
      if odraw i j && edraw i j then 1 else 0
    else
      if !odraw j i && edraw i j then 1 else 0
  else 0

/-- C4: for every `N ≥ 2`, every setting of the logits and every outcome
of the Bernoulli draws, the adjacency matrix returned by
`sample_hypothesis` never activates both directions of a pair in the
same draw, and has no self-loops. -/
theorem sample_hypothesis_mutual_exclusion (N : ℕ)
    (existence_logit orientation_logit : ℕ → ℕ → ℝ)
    (odraw edraw : ℕ → ℕ → Bool) (hN : 2 ≤ N) (i j : ℕ)
    (hi : i < N) (hj : j < N) :
    (i ≠ j →
      ¬(sample_hypothesis N existence_logit orientation_logit odraw edraw i j = 1 ∧
        sample_hypothesis N existence_logit orientation_logit odraw edraw j i = 1)) ∧
    sample_hypothesis N existence_logit orientation_logit odraw edraw i i = 0 := by
  constructor
  · intro hne ⟨h1, h2⟩
    rcases lt_trichotomy i j with hlt | heq | hgt
    · rw [sample_hypothesis] at h1 h2
      rw [if_pos ⟨hi, hj, hne⟩, if_pos hlt] at h1
      rw [if_pos ⟨hj, hi, hne.symm⟩, if_neg (by omega : ¬ j < i)] at h2
      cases hb : odraw i j
      · rw [hb] at h1; simp at h1
      · rw [hb] at h2; simp at h2
    · exact hne heq
    · rw [sample_hypothesis] at h1 h2
      rw [if_pos ⟨hi, hj, hne⟩, if_neg (by omega : ¬ i < j)] at h1
      rw [if_pos ⟨hj, hi, hne.symm⟩, if_pos hgt] at h2
      cases hb : odraw j i
      · rw [hb] at h2; simp at h2
      · rw [hb] at h1; simp at h1
  · simp [sample_hypothesis]

/-- Witness for `sample_hypothesis_mutual_exclusion` at `N = 2`,
zero logits, all-true draws, and the pair `(0, 1)`. -/
theorem sample_hypothesis_mutual_exclusion_witness :
    2 ≤ 2 ∧ (0 : ℕ) < 2 ∧ (1 : ℕ) < 2 ∧
    ((0 ≠ 1 →
      ¬(sample_hypothesis 2 (fun _ _ => 0) (fun _ _ => 0) (fun _ _ => true)
          (fun _ _ => true) 0 1 = 1 ∧
        sample_hypothesis 2 (fun _ _ => 0) (fun _ _ => 0) (fun _ _ => true)
          (fun _ _ => true) 1 0 = 1)) ∧
     sample_hypothesis 2 (fun _ _ => 0) (fun _ _ => 0) (fun _ _ => true)
       (fun _ _ => true) 0 0 = 0) :=
  ⟨by decide, by decide, by decide,
   sample_hypothesis_mutual_exclusion 2 (fun _ _ => 0) (fun _ _ => 0)
     (fun _ _ => true) (fun _ _ => true) (by decide) 0 1 (by decide) (by decide)⟩

/-- Modelled from the spec: the Structure Optimizer's durable state (§3,
§4.4) — the per-variable Conditional Density Model parameters (an opaque
type `D`) together with the graph parameters `existence_logit` and
`orientation_logit`. -/
structure OptimizerState (D : Type) where
  density : D
  existence_logit : ℕ → ℕ → ℝ
  orientation_logit : ℕ → ℕ → ℝ

/-- Modelled from the spec: Phase A, distribution fitting (§4.4), whose
implementation is not part of the provided sources. For a configured
number of inner steps it updates the Conditional Density Model by a
fitting step (abstracted as `fitStep`, covering hypothesis sampling,
batch sampling and the gradient update); it treats the graph parameters
as fixed and owns only the density state. -/
def phaseA {D : Type} (fitStep : D → D) (steps : ℕ)
    (s : OptimizerState D) : OptimizerState D :=
  { s with density := fitStep^[steps] s.density }

/-- C6: running Phase A to convergence twice in succession, with no
Phase B update in between, leaves both graph-parameter logits exactly
unchanged — Phase A never writes the graph parameters. -/
theorem phaseA_preserves_graph_logits {D : Type} (fitStep : D → D)
    (steps1 steps2 : ℕ) (s : OptimizerState D) :
    (phaseA fitStep steps2 (phaseA fitStep steps1 s)).existence_logit
        = s.existence_logit ∧
    (phaseA fitStep steps2 (phaseA fitStep steps1 s)).orientation_logit
        = s.orientation_logit :=
  ⟨rfl, rfl⟩

/-- Modelled from the spec: the set of active edges in the converged
adjacency hypothesis under sparsity penalty `lam` (§4.4 steps 3–5, §8).
The graph-fitting updates drive `existence_logit[i,j]` by gradient
ascent on the expected reward, which is the interventional
log-likelihood contrast of the edge (`score`) minus the constant
penalty `lam` per active edge; at convergence, thresholding
`sigmoid(existence_logit)` at `0.5` activates exactly the edges whose
contrast strictly exceeds the penalty (ties broken toward the sparser
graph). Scores are modelled as rationals so that the set is computable. -/
def convergedActiveEdges (N : ℕ) (score : ℕ × ℕ → ℚ) (lam : ℚ) :
    Finset (ℕ × ℕ) :=
  ((Finset.range N) ×ˢ (Finset.range N)).filter
    (fun e => e.1 ≠ e.2 ∧ lam < score e)

/-- C7: with all other inputs fixed, a larger sparsity penalty cannot
yield more active edges in the converged hypothesis. -/
theorem sparsity_monotone_active_edges (N : ℕ) (score : ℕ × ℕ → ℚ)
    (lam1 lam2 : ℚ) (h : lam1 ≤ lam2) :
    (convergedActiveEdges N score lam2).card
      ≤ (convergedActiveEdges N score lam1).card := by
  apply Finset.card_le_card
  intro e he
  simp only [convergedActiveEdges, Finset.mem_filter] at he ⊢
  exact ⟨he.1, he.2.1, lt_of_le_of_lt h he.2.2⟩

/-- Witness for `sparsity_monotone_active_edges` with two variables, the
score favoring the single edge `(0, 1)`, and penalties `0 ≤ 1`. -/
theorem sparsity_monotone_active_edges_witness :
    (0 : ℚ) ≤ 1 ∧
    (convergedActiveEdges 2 (fun e => if e = (0, 1) then 2 else 0) 1).card
      ≤ (convergedActiveEdges 2 (fun e => if e = (0, 1) then 2 else 0) 0).card :=
  ⟨by decide,
   sparsity_monotone_active_edges 2 (fun e => if e = (0, 1) then 2 else 0) 0 1
     (by decide)⟩

/-- Modelled from the spec: an InterventionSpec entry (§3) — either a
perfect/hard intervention fixing a value, or an imperfect intervention
replacing the variable's conditional by a new distribution (abstracted
as a function of the variable's random draw). -/
inductive Interv where
  | perfect (v : ℕ)
  | imperfect (d : ℕ → ℕ)

/-- Modelled from the spec: the Interventional Data Source (§4.1), whose
implementation (`CausalDAG` in `causal_graphs/graph_definition.py`) is
not part of the provided sources. A causal DAG is a list of variable
names in ancestral (causal) order together with each variable's true
causal mechanism, which maps the assignment of the earlier variables
and the variable's own random draw to a value. -/
structure CausalDAG where
  vars : List String
  mech : String → (String → ℕ) → ℕ → ℕ

/-- The intervention requested for variable `n`, if any (first matching
entry of the intervention list). -/
def lookupInterv (interv : List (String × Interv)) (n : String) : Option Interv :=
  (interv.find? (fun q => q.1 == n)).map Prod.snd

/-- The value drawn for variable `n` given the assignment `asg` of the
variables preceding it: the clamped value under a perfect intervention,
a fresh draw from the replacement distribution under an imperfect one,
and otherwise the true causal mechanism applied to the accumulated
assignment. -/
def assignVar (g : CausalDAG) (interv : List (String × Interv))
    (u : String → ℕ) (asg : String → ℕ) (n : String) : ℕ :=
  match lookupInterv interv n with
  | some (Interv.perfect v) => v
  | some (Interv.imperfect d) => d (u n)
  | none => g.mech n asg (u n)

/-- Ancestral sampling pass: assign the listed variables in order, each
from `assignVar` applied to the assignment accumulated so far. -/
def sampleList (g : CausalDAG) (interv : List (String × Interv))
    (u : String → ℕ) : List String → (String → ℕ) → (String → ℕ)
  | [], asg => asg
  | n :: rest, asg =>
      sampleList g interv u rest
        (fun m => if m = n then assignVar g interv u asg n else asg m)

/-- Modelled from the spec: `sample(n, interventions)` (§4.1). Samples
every variable in ancestral order, honoring the interventions; requesting
an intervention on a variable not defined in the graph is a
configuration error. The per-variable random draws are abstracted as the
function `u`. -/
def CausalDAG.sample (g : CausalDAG) (interv : List (String × Interv))
    (u : String → ℕ) : Except String (String → ℕ) :=
  if interv.all (fun p => g.vars.contains p.1) then
    Except.ok (sampleList g interv u g.vars (fun _ => 0))
  else
    Except.error "intervention on undefined variable"

/-- Observational ancestral sampling: every variable drawn from its true
causal mechanism, no interventions. -/
def observationalSample (g : CausalDAG) (u : String → ℕ) : String → ℕ :=
  sampleList g [] u g.vars (fun _ => 0)

lemma sampleList_not_mem (g : CausalDAG) (interv : List (String × Interv))
    (u : String → ℕ) (l : List String) (asg : String → ℕ) (n : String)
    (hn : n ∉ l) : sampleList g interv u l asg n = asg n := by
  induction l generalizing asg with
  | nil => rfl
  | cons m rest ih =>
      rw [sampleList, ih _ (fun hmem => hn (List.mem_cons_of_mem m hmem))]
      have hne : ¬(n = m) := fun hEq => hn (by rw [hEq]; exact List.mem_cons_self m rest)
      rw [if_neg hne]

lemma sampleList_append (g : CausalDAG) (interv : List (String × Interv))
    (u : String → ℕ) (l1 l2 : List String) (asg : String → ℕ) :
    sampleList g interv u (l1 ++ l2) asg
      = sampleList g interv u l2 (sampleList g interv u l1 asg) := by
  induction l1 generalizing asg with
  | nil => rfl
  | cons m rest ih => rw [List.cons_append, sampleList, sampleList, ih]

/-- C8: the data source contract. With an empty intervention list,
`sample` returns the observational sample of the unmodified joint
distribution. With a non-empty intervention list whose variables are all
defined, it succeeds, clamps each perfectly intervened variable to its
fixed value, redraws each imperfectly intervened variable from its
replacement distribution, and re-samples every non-intervened variable
from its true causal mechanism applied to the assignment accumulated
over the preceding variables (ancestral order). Requesting an
intervention on a variable not defined in the graph yields a
configuration error instead of a batch. -/
theorem causal_dag_sample_contract (g : CausalDAG) (u : String → ℕ) :
    (g.sample [] u = Except.ok (observationalSample g u)) ∧
    (∀ (interv : List (String × Interv)) (l1 l2 : List String) (n : String),
      g.vars = l1 ++ n :: l2 → n ∉ l2 →
      interv.all (fun p => g.vars.contains p.1) = true →
      ∃ asg, g.sample interv u = Except.ok asg ∧
        (∀ v, lookupInterv interv n = some (Interv.perfect v) → asg n = v) ∧
        (∀ d, lookupInterv interv n = some (Interv.imperfect d) →
          asg n = d (u n)) ∧
        (lookupInterv interv n = none →
          asg n = g.mech n (sampleList g interv u l1 (fun _ => 0)) (u n))) ∧
    (∀ interv : List (String × Interv),
      (∃ p ∈ interv, g.vars.contains p.1 = false) →
      g.sample interv u = Except.error "intervention on undefined variable") := by
  refine ⟨?_, ?_, ?_⟩
  · rw [CausalDAG.sample, observationalSample, if_pos (by simp)]
  · intro interv l1 l2 n hvars hn hall
    refine ⟨sampleList g interv u g.vars (fun _ => 0), ?_, ?_⟩
    · rw [CausalDAG.sample, if_pos hall]
    · have hval : sampleList g interv u g.vars (fun _ => 0) n
          = assignVar g interv u (sampleList g interv u l1 (fun _ => 0)) n := by
        rw [hvars, sampleList_append, sampleList, sampleList_not_mem _ _ _ _ _ _ hn,
          if_pos rfl]
      refine ⟨?_, ?_, ?_⟩
      · intro v hv; rw [hval, assignVar, hv]
      · intro d hd; rw [hval, assignVar, hd]
      · intro hnone; rw [hval, assignVar, hnone]
  · intro interv ⟨p, hp, hcontains⟩
    rw [CausalDAG.sample, if_neg]
    intro hall
    rw [List.all_eq_true] at hall
    exact (Bool.not_eq_true _).mpr hcontains (hall p hp)

/-- Witness for `causal_dag_sample_contract` on the two-variable chain
`A → B` with mechanism `B := value of A + draw`: the empty intervention
list is observational, a perfect intervention on `A` clamps `A` to `5`,
and an intervention on the undefined variable `C` is a configuration
error. -/
theorem causal_dag_sample_contract_witness :
    ((CausalDAG.mk ["A", "B"] (fun _ asg r => asg "A" + r)).sample [] (fun _ => 3)
        = Except.ok (observationalSample
            (CausalDAG.mk ["A", "B"] (fun _ asg r => asg "A" + r)) (fun _ => 3))) ∧
    (∃ asg, (CausalDAG.mk ["A", "B"] (fun _ asg r => asg "A" + r)).sample
          [("A", Interv.perfect 5)] (fun _ => 3) = Except.ok asg ∧
        (∀ v, lookupInterv [("A", Interv.perfect 5)] "A" = some (Interv.perfect v) →
          asg "A" = v) ∧
        (∀ d, lookupInterv [("A", Interv.perfect 5)] "A" = some (Interv.imperfect d) →
          asg "A" = d 3) ∧
        (lookupInterv [("A", Interv.perfect 5)] "A" = none →
          asg "A" = (fun _ asg r => asg "A" + r) "A"
            (sampleList (CausalDAG.mk ["A", "B"] (fun _ asg r => asg "A" + r))
              [("A", Interv.perfect 5)] (fun _ => 3) [] (fun _ => 0)) 3)) ∧
    ((CausalDAG.mk ["A", "B"] (fun _ asg r => asg "A" + r)).sample
        [("C", Interv.perfect 1)] (fun _ => 3)
      = Except.error "intervention on undefined variable") :=
  ⟨(causal_dag_sample_contract (CausalDAG.mk ["A", "B"] (fun _ asg r => asg "A" + r))
      (fun _ => 3)).1,
   (causal_dag_sample_contract (CausalDAG.mk ["A", "B"] (fun _ asg r => asg "A" + r))
      (fun _ => 3)).2.1 [("A", Interv.perfect 5)] [] ["B"] "A" rfl (by decide)
      (by decide),
   (causal_dag_sample_contract (CausalDAG.mk ["A", "B"] (fun _ asg r => asg "A" + r))
      (fun _ => 3)).2.2 [("C", Interv.perfect 1)]
      ⟨("C", Interv.perfect 1), List.mem_cons_self _ _, by decide⟩⟩

end ENCO
